import Mathlib

/-!
# Verification of the C4-subset compiler pipeline (Rust sources)

A shallow embedding of the repository's lexer (src/lexer.rs), parser
(src/parser.rs), AST (src/ast.rs) and the bytecode compiler / virtual
machine found in src/vm.rs, together with theorems settling the frozen
claims about the natural-language specification.

Conventions of the embedding:
* the lexer state is the list of characters still to be consumed
  (the Rust Peekable over CharIndices);
* Rust Result values become Except values; error message strings become
  small structured error types carrying the same information;
* machine integers are modelled as Int with explicit two's-complement
  range checks and wraps where the Rust i32/i64 width matters; checked
  arithmetic mirrors the debug (overflow-panicking) semantics of the
  test build;
* Rust panics and the VM's unbounded dispatch loop are modelled by an
  Option result with an explicit fuel argument; a None result covers
  both a panic and exhausted fuel.
-/

namespace C4

/- ===================== AST (src/ast.rs) ===================== -/

/-- Types in C4: void, int, char, or pointer to (ast.rs, enum Type).
Named Ty because Type is reserved in Lean. -/
inductive Ty where
  | void
  | int
  | char
  | ptr (t : Ty)
  deriving DecidableEq, Repr

/-- Binary operators in C4 (ast.rs, enum BinOp). -/
inductive BinOp where
  | assign
  | add | sub | mul | div | mod
  | eq | ne | lt | le | gt | ge
  | bitAnd | bitOr | xor
  | shl | shr
  | logAnd | logOr
  deriving DecidableEq, Repr

/-- Unary operators, including prefix and suffix forms (ast.rs, enum UnOp). -/
inductive UnOp where
  | preInc | preDec | postInc | postDec
  | plus | neg | not | bitNot | deref | addr
  deriving DecidableEq, Repr

/-- Expressions in C4 (ast.rs, enum Expr). -/
inductive Expr where
  | num (n : Int)
  | str (s : String)
  | var (name : String)
  | unary (op : UnOp) (e : Expr)
  | binary (op : BinOp) (left right : Expr)
  | call (callee : Expr) (args : List Expr)
  | cast (ty : Ty) (e : Expr)
  | sizeOf (ty : Ty)
  | conditional (cond thenExpr elseExpr : Expr)
  | index (array idx : Expr)
  deriving Repr

/-- Statements in C4 (ast.rs, enum Stmt). -/
inductive Stmt where
  | sIf (cond : Expr) (thenBranch : Stmt) (elseBranch : Option Stmt)
  | sWhile (cond : Expr) (body : Stmt)
  | ret (e : Option Expr)
  | exprS (e : Expr)
  | block (stmts : List Stmt)
  | empty
  deriving Repr

/-- A block: a sequence of statements (ast.rs, struct Block).
Rust wraps the list in a one-field struct; we keep the wrapper. -/
structure Block where
  stmts : List Stmt
  deriving Repr

/-- A global variable declaration (ast.rs, struct GlobalDecl). -/
structure GlobalDecl where
  name : String
  ty : Ty
  deriving DecidableEq, Repr

/-- An anonymous enum declaration (ast.rs, struct EnumDecl). -/
structure EnumDecl where
  variants : List (String × Option Int)
  deriving DecidableEq, Repr

/-- A function definition (ast.rs, struct FuncDef). -/
structure FuncDef where
  ret : Ty
  name : String
  params : List (String × Ty)
  locals : List (String × Ty)
  body : Block
  deriving Repr

/-- Top-level items (ast.rs, enum Item). -/
inductive Item where
  | global (g : GlobalDecl)
  | function (f : FuncDef)
  | enum (e : EnumDecl)
  deriving Repr

/-- A full C4 program (ast.rs, struct Program). -/
structure Program where
  items : List Item
  deriving Repr

/- Note: in ast.rs the Stmt::Block variant holds a Block struct; the
embedding inlines the statement list to keep the nested induction
simple.  A Block value appears wherever the Rust code holds one. -/

/- ===================== Lexer (src/lexer.rs) ===================== -/

/-- Tokens (lexer.rs, enum Token). -/
inductive Token where
  | num (n : Int)
  | ident (s : String)
  | str (s : String)
  | chr (c : Char)
  | kwVoid | kwInt | kwChar | kwEnum | kwIf | kwElse | kwWhile | kwReturn | kwSizeof
  | plus | minus | star | slash | percent
  | assign
  | eqEq | not | ne
  | lt | le | gt | ge
  | and | andAnd
  | or | orOr
  | xor
  | shl | shr
  | inc | dec
  | tilde
  | question | colon
  | semicolon | comma
  | lparen | rparen
  | lbrace | rbrace
  | lbracket | rbracket
  | eof
  deriving DecidableEq, Repr

/-- Lexical errors (lexer.rs, struct LexError).  The Rust type carries a
message string; the embedding keeps the distinguishing content. -/
inductive LexError where
  /-- i64::from_str_radix failed on the scanned slice. -/
  | invalidNum
  /-- An unexpected character outside the recognized set; carries it. -/
  | unexpectedChar (c : Char)
  /-- Unterminated char literal. -/
  | untermChar
  deriving DecidableEq, Repr

/-- Drop characters up to and including the next newline
(the comment / preprocessor line loops in skip_whitespace_and_comments). -/
def dropLine : List Char → List Char
  | [] => []
  | c :: rest => if c = '\n' then rest else dropLine rest

/-- The loop body of skip_whitespace_and_comments, with a fuel bound on
the number of loop iterations; every iteration consumes at least one
character, so fuel = length of the input is always enough. -/
def skipWSF : Nat → List Char → List Char
  | 0, cs => cs
  | _, [] => []
  | fuel + 1, c :: rest =>
    if c.isWhitespace then skipWSF fuel rest
    else if c = '/' then
      match rest with
      | '/' :: r2 => skipWSF fuel (dropLine r2)
      | _ => c :: rest
    else if c = '#' then skipWSF fuel (dropLine rest)
    else c :: rest

/-- skip_whitespace_and_comments: skip whitespace, // line comments and
lines starting with the hash character, before scanning a token. -/
def skipWS (cs : List Char) : List Char := skipWSF cs.length cs

/-- Value of one ASCII digit in a radix, mirroring what
i64::from_str_radix accepts per character. -/
def digitVal (c : Char) : Option Nat :=
  if c.isDigit then some (c.toNat - '0'.toNat)
  else if 'a' ≤ c ∧ c ≤ 'f' then some (c.toNat - 'a'.toNat + 10)
  else if 'A' ≤ c ∧ c ≤ 'F' then some (c.toNat - 'A'.toNat + 10)
  else none

/-- Model of i64::from_str_radix on the scanned slice: every character
must be a digit of the radix and the value must fit in i64 (the slices
the lexer passes always begin with an ASCII digit, so the sign handling
of the Rust function is unreachable and omitted). -/
def fromStrRadix (radix : Nat) (cs : List Char) : Option Int :=
  match cs with
  | [] => none
  | _ =>
    match cs.foldl
        (fun acc c =>
          match acc, digitVal c with
          | some a, some d => if d < radix then some (a * radix + d) else none
          | _, _ => none)
        (some (0 : Nat)) with
    | none => none
    | some v => if v < 2 ^ 63 then some (Int.ofNat v) else none

/-- is_ascii_hexdigit. -/
def isHexDigitA (c : Char) : Bool :=
  c.isDigit || ('a' ≤ c && c ≤ 'f') || ('A' ≤ c && c ≤ 'F')

/-- Octal digit test used by the leading-zero branch. -/
def isOctDigit (c : Char) : Bool := '0' ≤ c && c ≤ '7'

/-- Build the numeric token from a scanned slice and radix, or the
lexical error that from_str_radix produces. -/
def mkNumTok (radix : Nat) (slice : List Char) (rest : List Char) :
    Except LexError Token × List Char :=
  match fromStrRadix radix slice with
  | some v => (.ok (.num v), rest)
  | none => (.error .invalidNum, rest)

/-- Numeric-literal scanning (lexer.rs next_token, digit branch).
ch is the already-consumed first digit; rest is the input after it.
The scanned slice deliberately starts at the first character, so for
hexadecimal it includes the 0x prefix exactly as the Rust slice does. -/
def scanNum (ch : Char) (rest : List Char) : Except LexError Token × List Char :=
  if ch = '0' then
    match rest with
    | 'x' :: r2 =>
      let digits := r2.takeWhile isHexDigitA
      mkNumTok 16 ('0' :: 'x' :: digits) (r2.dropWhile isHexDigitA)
    | 'X' :: r2 =>
      let digits := r2.takeWhile isHexDigitA
      mkNumTok 16 ('0' :: 'X' :: digits) (r2.dropWhile isHexDigitA)
    | c :: _ =>
      if isOctDigit c then
        let digits := rest.takeWhile isOctDigit
        mkNumTok 8 ('0' :: digits) (rest.dropWhile isOctDigit)
      else
        mkNumTok 10 ['0'] rest
    | [] => mkNumTok 10 ['0'] rest
  else
    let digits := rest.takeWhile Char.isDigit
    mkNumTok 10 (ch :: digits) (rest.dropWhile Char.isDigit)

/-- Keyword table (lexer.rs next_token, identifier branch). -/
def kwOrIdent (s : String) : Token :=
  match s with
  | "void" => .kwVoid
  | "char" => .kwChar
  | "else" => .kwElse
  | "enum" => .kwEnum
  | "if" => .kwIf
  | "int" => .kwInt
  | "return" => .kwReturn
  | "sizeof" => .kwSizeof
  | "while" => .kwWhile
  | s => .ident s

/-- Identifier continuation test: is_ascii_alphanumeric or underscore. -/
def isIdentCont (c : Char) : Bool := c.isAlphanum || c = '_'

/-- Identifier / keyword scanning. -/
def scanIdent (ch : Char) (rest : List Char) : Except LexError Token × List Char :=
  let took := rest.takeWhile isIdentCont
  (.ok (kwOrIdent (String.mk (ch :: took))), rest.dropWhile isIdentCont)

/-- The escape rule shared by string and char literals: backslash-n is a
newline, anything else passes through. -/
def escChar (e : Char) : Char := if e = 'n' then '\n' else e

/-- String-literal scanning loop (lexer.rs next_token, quote branch),
with the accumulated characters threaded like the Rust String s. -/
def scanStr : List Char → List Char → List Char × List Char
  | [], acc => (acc, [])
  | '"' :: r, acc => (acc, r)
  | '\\' :: [], acc => (acc, [])
  | '\\' :: e :: r, acc => scanStr r (acc ++ [escChar e])
  | c :: r, acc => scanStr r (acc ++ [c])

/-- Char-literal scanning (lexer.rs next_token, single-quote branch);
folds the character into a numeric token. -/
def scanCharLit (rest : List Char) : Except LexError Token × List Char :=
  match rest with
  | [] => (.error .untermChar, [])
  | '\\' :: r =>
    match r with
    | [] => (.error .untermChar, [])
    | e :: r2 =>
      let c := escChar e
      match r2 with
      | '\'' :: r3 => (.ok (.num (Int.ofNat c.toNat)), r3)
      | _ => (.ok (.num (Int.ofNat c.toNat)), r2)
  | c :: r =>
    match r with
    | '\'' :: r2 => (.ok (.num (Int.ofNat c.toNat)), r2)
    | _ => (.ok (.num (Int.ofNat c.toNat)), r)

/-- Two-character operator table, grouped by the first character. -/
def twoCharTok (a b : Char) : Option Token :=
  match a with
  | '=' => if b = '=' then some .eqEq else none
  | '!' => if b = '=' then some .ne else none
  | '<' => if b = '=' then some .le else if b = '<' then some .shl else none
  | '>' => if b = '=' then some .ge else if b = '>' then some .shr else none
  | '&' => if b = '&' then some .andAnd else none
  | '|' => if b = '|' then some .orOr else none
  | '+' => if b = '+' then some .inc else none
  | '-' => if b = '-' then some .dec else none
  | _ => none

/-- Single-character token table; unmatched characters are the lexical
error carrying the offending character. -/
def singleTok (c : Char) : Except LexError Token :=
  match c with
  | '+' => .ok .plus
  | '-' => .ok .minus
  | '*' => .ok .star
  | '/' => .ok .slash
  | '%' => .ok .percent
  | '=' => .ok .assign
  | '!' => .ok .not
  | '<' => .ok .lt
  | '>' => .ok .gt
  | '&' => .ok .and
  | '|' => .ok .or
  | '^' => .ok .xor
  | '~' => .ok .tilde
  | '?' => .ok .question
  | ':' => .ok .colon
  | ';' => .ok .semicolon
  | ',' => .ok .comma
  | '(' => .ok .lparen
  | ')' => .ok .rparen
  | '\x7b' => .ok .lbrace
  | '\x7d' => .ok .rbrace
  | '[' => .ok .lbracket
  | ']' => .ok .rbracket
  | c => .error (.unexpectedChar c)

/-- Scan one token given the consumed first character and the rest. -/
def nextTokenAt (c : Char) (rest : List Char) : Except LexError Token × List Char :=
  if c.isDigit then scanNum c rest
  else if c.isAlpha || c = '_' then scanIdent c rest
  else if c = '"' then
    let (s, r) := scanStr rest []
    (.ok (.str (String.mk s)), r)
  else if c = '\'' then scanCharLit rest
  else
    match rest with
    | b :: r2 =>
      match twoCharTok c b with
      | some t => (.ok t, r2)
      | none => (singleTok c, rest)
    | [] => (singleTok c, rest)

/-- next_token (lexer.rs): returns the next token or a lexical error,
together with the remaining input. -/
def nextToken (cs : List Char) : Except LexError Token × List Char :=
  match skipWS cs with
  | [] => (.ok .eof, [])
  | c :: rest => nextTokenAt c rest

/- ===================== Parser (src/parser.rs) ===================== -/

/-- Parser state: the single current-token lookahead plus the lexer
remainder (parser.rs, struct Parser). -/
structure PSt where
  cur : Token
  rest : List Char
  deriving DecidableEq, Repr

/-- Parser errors.  parser.rs uses String messages; the embedding keeps
the same distinguishing content as structured variants.  outOfFuel is an
artifact of the fuelled embedding of the recursive descent. -/
inductive PErr where
  | lex (e : LexError)
  | expected (want got : Token)
  | expectedIdent (got : Token)
  | expectedType (got : Token)
  | enumInitNotNum
  | unexpectedPrimary (got : Token)
  | outOfFuel
  deriving DecidableEq, Repr

/-- Advance to the next token (Parser::bump). -/
def bump (st : PSt) : Except PErr PSt :=
  match nextToken st.rest with
  | (.error e, _) => .error (.lex e)
  | (.ok t, r) => .ok ⟨t, r⟩

/-- Parser::new: read the first token. -/
def pNew (src : String) : Except PErr PSt :=
  match nextToken src.toList with
  | (.error e, _) => .error (.lex e)
  | (.ok t, r) => .ok ⟨t, r⟩

/-- Consume the token if it matches (Parser::eat). -/
def eat (t : Token) (st : PSt) : Except PErr (Bool × PSt) :=
  if st.cur = t then do
    let st' ← bump st
    return (true, st')
  else .ok (false, st)

/-- Expect the token or error (Parser::expect). -/
def expect (t : Token) (st : PSt) : Except PErr PSt :=
  if st.cur = t then bump st
  else .error (.expected t st.cur)

/-- Expect an identifier and return its name (Parser::expect_ident).
On failure the Rust code has already replaced the lookahead by Eof via
mem::replace, so the reported token is always Eof. -/
def expectIdent (st : PSt) : Except PErr (String × PSt) :=
  match st.cur with
  | .ident n => do
    let st' ← bump st
    return (n, st')
  | _ => .error (.expectedIdent .eof)

/-- The pointer-star loop of parse_type. -/
def parseStars : Nat → Ty → PSt → Except PErr (Ty × PSt)
  | 0, _, _ => .error .outOfFuel
  | fuel + 1, t, st =>
    if st.cur = .star then do
      let st' ← bump st
      parseStars fuel (.ptr t) st'
    else .ok (t, st)

/-- parse_type: void, int, char, then star pointers. -/
def parseTy (fuel : Nat) (st : PSt) : Except PErr (Ty × PSt) :=
  match st.cur with
  | .kwVoid => do let st' ← bump st; parseStars fuel .void st'
  | .kwInt => do let st' ← bump st; parseStars fuel .int st'
  | .kwChar => do let st' ← bump st; parseStars fuel .char st'
  | t => .error (.expectedType t)

/-- parse_primary: number, string, identifier. -/
def parsePrimary (st : PSt) : Except PErr (Expr × PSt) :=
  match st.cur with
  | .num n => do let st' ← bump st; return (.num n, st')
  | .str s => do let st' ← bump st; return (.str s, st')
  | .ident _ => do
    let (n, st') ← expectIdent st
    return (.var n, st')
  | t => .error (.unexpectedPrimary t)

mutual

/-- parse_assignment: assignment at the lowest precedence,
right-associative. -/
def parseAssignment : Nat → PSt → Except PErr (Expr × PSt)
  | 0, _ => .error .outOfFuel
  | fuel + 1, st => do
    let (left, st) ← parseLogicalOr fuel st
    let (b, st) ← eat .assign st
    if b then
      let (right, st) ← parseAssignment fuel st
      return (.binary .assign left right, st)
    else
      return (left, st)

/-- parse_conditional: the ternary; its operand comes from
parse_bitwise_or, and it sits between logical-and and bitwise-or. -/
def parseConditional : Nat → PSt → Except PErr (Expr × PSt)
  | 0, _ => .error .outOfFuel
  | fuel + 1, st => do
    let (e, st) ← parseBitwiseOr fuel st
    let (b, st) ← eat .question st
    if b then
      let (thenE, st) ← parseAssignment fuel st
      let st ← expect .colon st
      let (elseE, st) ← parseAssignment fuel st
      return (.conditional e thenE elseE, st)
    else
      return (e, st)

/-- parse_logical_and: operands come from parse_conditional. -/
def parseLogicalAnd : Nat → PSt → Except PErr (Expr × PSt)
  | 0, _ => .error .outOfFuel
  | fuel + 1, st => do
    let (e, st) ← parseConditional fuel st
    landLoop fuel e st

/-- The while-eat loop of parse_logical_and. -/
def landLoop : Nat → Expr → PSt → Except PErr (Expr × PSt)
  | 0, _, _ => .error .outOfFuel
  | fuel + 1, e, st => do
    let (b, st) ← eat .andAnd st
    if b then
      let (rhs, st) ← parseConditional fuel st
      landLoop fuel (.binary .logAnd e rhs) st
    else
      return (e, st)

/-- parse_logical_or: operands come from parse_logical_and. -/
def parseLogicalOr : Nat → PSt → Except PErr (Expr × PSt)
  | 0, _ => .error .outOfFuel
  | fuel + 1, st => do
    let (e, st) ← parseLogicalAnd fuel st
    lorLoop fuel e st

/-- The while-eat loop of parse_logical_or. -/
def lorLoop : Nat → Expr → PSt → Except PErr (Expr × PSt)
  | 0, _, _ => .error .outOfFuel
  | fuel + 1, e, st => do
    let (b, st) ← eat .orOr st
    if b then
      let (rhs, st) ← parseLogicalAnd fuel st
      lorLoop fuel (.binary .logOr e rhs) st
    else
      return (e, st)

/-- parse_bitwise_or. -/
def parseBitwiseOr : Nat → PSt → Except PErr (Expr × PSt)
  | 0, _ => .error .outOfFuel
  | fuel + 1, st => do
    let (e, st) ← parseBitwiseXor fuel st
    borLoop fuel e st

/-- The while-eat loop of parse_bitwise_or. -/
def borLoop : Nat → Expr → PSt → Except PErr (Expr × PSt)
  | 0, _, _ => .error .outOfFuel
  | fuel + 1, e, st => do
    let (b, st) ← eat .or st
    if b then
      let (rhs, st) ← parseBitwiseXor fuel st
      borLoop fuel (.binary .bitOr e rhs) st
    else
      return (e, st)

/-- parse_bitwise_xor. -/
def parseBitwiseXor : Nat → PSt → Except PErr (Expr × PSt)
  | 0, _ => .error .outOfFuel
  | fuel + 1, st => do
    let (e, st) ← parseBitwiseAnd fuel st
    bxorLoop fuel e st

/-- The while-eat loop of parse_bitwise_xor. -/
def bxorLoop : Nat → Expr → PSt → Except PErr (Expr × PSt)
  | 0, _, _ => .error .outOfFuel
  | fuel + 1, e, st => do
    let (b, st) ← eat .xor st
    if b then
      let (rhs, st) ← parseBitwiseAnd fuel st
      bxorLoop fuel (.binary .xor e rhs) st
    else
      return (e, st)

/-- parse_bitwise_and. -/
def parseBitwiseAnd : Nat → PSt → Except PErr (Expr × PSt)
  | 0, _ => .error .outOfFuel
  | fuel + 1, st => do
    let (e, st) ← parseEquality fuel st
    bandLoop fuel e st

/-- The while-eat loop of parse_bitwise_and. -/
def bandLoop : Nat → Expr → PSt → Except PErr (Expr × PSt)
  | 0, _, _ => .error .outOfFuel
  | fuel + 1, e, st => do
    let (b, st) ← eat .and st
    if b then
      let (rhs, st) ← parseEquality fuel st
      bandLoop fuel (.binary .bitAnd e rhs) st
    else
      return (e, st)

/-- parse_equality. -/
def parseEquality : Nat → PSt → Except PErr (Expr × PSt)
  | 0, _ => .error .outOfFuel
  | fuel + 1, st => do
    let (e, st) ← parseRelational fuel st
    eqLoop fuel e st

/-- The loop of parse_equality, trying == then != as the source does. -/
def eqLoop : Nat → Expr → PSt → Except PErr (Expr × PSt)
  | 0, _, _ => .error .outOfFuel
  | fuel + 1, e, st => do
    let (b, st) ← eat .eqEq st
    if b then
      let (rhs, st) ← parseRelational fuel st
      eqLoop fuel (.binary .eq e rhs) st
    else
      let (b, st) ← eat .ne st
      if b then
        let (rhs, st) ← parseRelational fuel st
        eqLoop fuel (.binary .ne e rhs) st
      else
        return (e, st)

/-- parse_relational. -/
def parseRelational : Nat → PSt → Except PErr (Expr × PSt)
  | 0, _ => .error .outOfFuel
  | fuel + 1, st => do
    let (e, st) ← parseShift fuel st
    relLoop fuel e st

/-- The loop of parse_relational, in source order: lt, gt, le, ge. -/
def relLoop : Nat → Expr → PSt → Except PErr (Expr × PSt)
  | 0, _, _ => .error .outOfFuel
  | fuel + 1, e, st => do
    let (b, st) ← eat .lt st
    if b then
      let (rhs, st) ← parseShift fuel st
      relLoop fuel (.binary .lt e rhs) st
    else
      let (b, st) ← eat .gt st
      if b then
        let (rhs, st) ← parseShift fuel st
        relLoop fuel (.binary .gt e rhs) st
      else
        let (b, st) ← eat .le st
        if b then
          let (rhs, st) ← parseShift fuel st
          relLoop fuel (.binary .le e rhs) st
        else
          let (b, st) ← eat .ge st
          if b then
            let (rhs, st) ← parseShift fuel st
            relLoop fuel (.binary .ge e rhs) st
          else
            return (e, st)

/-- parse_shift. -/
def parseShift : Nat → PSt → Except PErr (Expr × PSt)
  | 0, _ => .error .outOfFuel
  | fuel + 1, st => do
    let (e, st) ← parseAddSub fuel st
    shiftLoop fuel e st

/-- The loop of parse_shift. -/
def shiftLoop : Nat → Expr → PSt → Except PErr (Expr × PSt)
  | 0, _, _ => .error .outOfFuel
  | fuel + 1, e, st => do
    let (b, st) ← eat .shl st
    if b then
      let (rhs, st) ← parseAddSub fuel st
      shiftLoop fuel (.binary .shl e rhs) st
    else
      let (b, st) ← eat .shr st
      if b then
        let (rhs, st) ← parseAddSub fuel st
        shiftLoop fuel (.binary .shr e rhs) st
      else
        return (e, st)

/-- parse_add_sub. -/
def parseAddSub : Nat → PSt → Except PErr (Expr × PSt)
  | 0, _ => .error .outOfFuel
  | fuel + 1, st => do
    let (e, st) ← parseMulDivMod fuel st
    addLoop fuel e st

/-- The loop of parse_add_sub. -/
def addLoop : Nat → Expr → PSt → Except PErr (Expr × PSt)
  | 0, _, _ => .error .outOfFuel
  | fuel + 1, e, st => do
    let (b, st) ← eat .plus st
    if b then
      let (rhs, st) ← parseMulDivMod fuel st
      addLoop fuel (.binary .add e rhs) st
    else
      let (b, st) ← eat .minus st
      if b then
        let (rhs, st) ← parseMulDivMod fuel st
        addLoop fuel (.binary .sub e rhs) st
      else
        return (e, st)

/-- parse_mul_div_mod. -/
def parseMulDivMod : Nat → PSt → Except PErr (Expr × PSt)
  | 0, _ => .error .outOfFuel
  | fuel + 1, st => do
    let (e, st) ← parseUnary fuel st
    mulLoop fuel e st

/-- The loop of parse_mul_div_mod. -/
def mulLoop : Nat → Expr → PSt → Except PErr (Expr × PSt)
  | 0, _, _ => .error .outOfFuel
  | fuel + 1, e, st => do
    let (b, st) ← eat .star st
    if b then
      let (rhs, st) ← parseUnary fuel st
      mulLoop fuel (.binary .mul e rhs) st
    else
      let (b, st) ← eat .slash st
      if b then
        let (rhs, st) ← parseUnary fuel st
        mulLoop fuel (.binary .div e rhs) st
      else
        let (b, st) ← eat .percent st
        if b then
          let (rhs, st) ← parseUnary fuel st
          mulLoop fuel (.binary .mod e rhs) st
        else
          return (e, st)

/-- parse_unary: prefix operators, sizeof, casts, parenthesized
grouping, then the suffix level. -/
def parseUnary : Nat → PSt → Except PErr (Expr × PSt)
  | 0, _ => .error .outOfFuel
  | fuel + 1, st => do
    let (b, st) ← eat .inc st
    if b then
      let (e, st) ← parseUnary fuel st
      return (.unary .preInc e, st)
    let (b, st) ← eat .dec st
    if b then
      let (e, st) ← parseUnary fuel st
      return (.unary .preDec e, st)
    let (b, st) ← eat .plus st
    if b then
      let (e, st) ← parseUnary fuel st
      return (.unary .plus e, st)
    let (b, st) ← eat .minus st
    if b then
      let (e, st) ← parseUnary fuel st
      return (.unary .neg e, st)
    let (b, st) ← eat .not st
    if b then
      let (e, st) ← parseUnary fuel st
      return (.unary .not e, st)
    let (b, st) ← eat .tilde st
    if b then
      let (e, st) ← parseUnary fuel st
      return (.unary .bitNot e, st)
    let (b, st) ← eat .star st
    if b then
      let (e, st) ← parseUnary fuel st
      return (.unary .deref e, st)
    let (b, st) ← eat .and st
    if b then
      let (e, st) ← parseUnary fuel st
      return (.unary .addr e, st)
    let (b, st) ← eat .kwSizeof st
    if b then
      let st ← expect .lparen st
      let (t, st) ← parseTy fuel st
      let st ← expect .rparen st
      return (.sizeOf t, st)
    let (b, st) ← eat .lparen st
    if b then
      if st.cur = .kwVoid ∨ st.cur = .kwInt ∨ st.cur = .kwChar then
        let (ty, st) ← parseTy fuel st
        let st ← expect .rparen st
        let (e, st) ← parseUnary fuel st
        return (.cast ty e, st)
      else
        let (e, st) ← parseAssignment fuel st
        let st ← expect .rparen st
        return (e, st)
    parsePost fuel st

/-- parse_postfix: a primary followed by suffix inc/dec, calls, indexing. -/
def parsePost : Nat → PSt → Except PErr (Expr × PSt)
  | 0, _ => .error .outOfFuel
  | fuel + 1, st => do
    let (e, st) ← parsePrimary st
    postLoop fuel e st

/-- The suffix loop of parse_postfix. -/
def postLoop : Nat → Expr → PSt → Except PErr (Expr × PSt)
  | 0, _, _ => .error .outOfFuel
  | fuel + 1, e, st => do
    let (b, st) ← eat .inc st
    if b then
      postLoop fuel (.unary .postInc e) st
    else
      let (b, st) ← eat .dec st
      if b then
        postLoop fuel (.unary .postDec e) st
      else
        let (b, st) ← eat .lparen st
        if b then
          let (args, st) ←
            if st.cur = .rparen then pure (([] : List Expr), st)
            else argsLoop fuel [] st
          let st ← expect .rparen st
          postLoop fuel (.call e args) st
        else
          let (b, st) ← eat .lbracket st
          if b then
            let (idx, st) ← parseAssignment fuel st
            let st ← expect .rbracket st
            postLoop fuel (.index e idx) st
          else
            return (e, st)

/-- The comma-separated argument loop inside parse_postfix; arguments
parse at assignment precedence. -/
def argsLoop : Nat → List Expr → PSt → Except PErr (List Expr × PSt)
  | 0, _, _ => .error .outOfFuel
  | fuel + 1, acc, st => do
    let (a, st) ← parseAssignment fuel st
    let (b, st) ← eat .comma st
    if b then argsLoop fuel (acc ++ [a]) st
    else return (acc ++ [a], st)

/-- parse_stmt. -/
def parseStmt : Nat → PSt → Except PErr (Stmt × PSt)
  | 0, _ => .error .outOfFuel
  | fuel + 1, st => do
    if st.cur = .kwInt ∨ st.cur = .kwChar then
      -- skip local declarations, then parse the following statement
      let (_, st) ← parseTy fuel st
      let st ← declSkipLoop fuel st
      let st ← expect .semicolon st
      parseStmt fuel st
    else if st.cur = .kwIf then
      let st ← bump st
      let st ← expect .lparen st
      let (cond, st) ← parseAssignment fuel st
      let st ← expect .rparen st
      let (thenB, st) ← parseStmt fuel st
      let (b, st) ← eat .kwElse st
      if b then
        let (elseB, st) ← parseStmt fuel st
        return (.sIf cond thenB (some elseB), st)
      else
        return (.sIf cond thenB none, st)
    else if st.cur = .kwWhile then
      let st ← bump st
      let st ← expect .lparen st
      let (cond, st) ← parseAssignment fuel st
      let st ← expect .rparen st
      let (body, st) ← parseStmt fuel st
      return (.sWhile cond body, st)
    else if st.cur = .kwReturn then
      let st ← bump st
      if st.cur ≠ .semicolon then
        let (e, st) ← parseAssignment fuel st
        let st ← expect .semicolon st
        return (.ret (some e), st)
      else
        let st ← expect .semicolon st
        return (.ret none, st)
    else if st.cur = .lbrace then
      let (ss, st) ← parseBlock fuel st
      return (.block ss, st)
    else
      let (b, st) ← eat .semicolon st
      if b then
        return (.empty, st)
      else
        let (e, st) ← parseAssignment fuel st
        let st ← expect .semicolon st
        return (.exprS e, st)

/-- The declarator-skipping loop at the head of parse_stmt. -/
def declSkipLoop : Nat → PSt → Except PErr PSt
  | 0, _ => .error .outOfFuel
  | fuel + 1, st => do
    let (_, st) ← expectIdent st
    let (b, st) ← eat .comma st
    if b then declSkipLoop fuel st
    else return st

/-- parse_block: braces wrapping statements. -/
def parseBlock : Nat → PSt → Except PErr (List Stmt × PSt)
  | 0, _ => .error .outOfFuel
  | fuel + 1, st => do
    let st ← expect .lbrace st
    blockLoop fuel [] st

/-- The statement loop of parse_block; the closing brace is consumed. -/
def blockLoop : Nat → List Stmt → PSt → Except PErr (List Stmt × PSt)
  | 0, _, _ => .error .outOfFuel
  | fuel + 1, acc, st =>
    if st.cur = .rbrace then do
      let st' ← bump st
      return (acc, st')
    else do
      let (s, st) ← parseStmt fuel st
      blockLoop fuel (acc ++ [s]) st

/-- parse_func, entered after the opening parenthesis is consumed. -/
def parseFunc : Nat → String → Ty → PSt → Except PErr (FuncDef × PSt)
  | 0, _, _, _ => .error .outOfFuel
  | fuel + 1, name, retTy, st => do
    let (params, st) ←
      if st.cur = .rparen then pure (([] : List (String × Ty)), st)
      else paramsLoop fuel [] st
    let st ← expect .rparen st
    let st ← expect .lbrace st
    let (locals, st) ← localsLoop fuel [] st
    let (stmts, st) ← funcStmtsLoop fuel [] st
    -- extra empty statement appended after the loop, as in the source
    let st ← bump st
    return (⟨retTy, name, params, locals, ⟨stmts ++ [Stmt.empty]⟩⟩, st)

/-- The parameter loop of parse_func. -/
def paramsLoop : Nat → List (String × Ty) → PSt → Except PErr (List (String × Ty) × PSt)
  | 0, _, _ => .error .outOfFuel
  | fuel + 1, acc, st => do
    let (pty, st) ← parseTy fuel st
    let (pname, st) ← expectIdent st
    let (b, st) ← eat .comma st
    if b then paramsLoop fuel (acc ++ [(pname, pty)]) st
    else return (acc ++ [(pname, pty)], st)

/-- The leading-locals loop of parse_func. -/
def localsLoop : Nat → List (String × Ty) → PSt → Except PErr (List (String × Ty) × PSt)
  | 0, _, _ => .error .outOfFuel
  | fuel + 1, acc, st =>
    if st.cur = .kwInt ∨ st.cur = .kwChar then do
      let (lty, st) ← parseTy fuel st
      let (acc, st) ← localDeclLoop fuel lty acc st
      let st ← expect .semicolon st
      localsLoop fuel acc st
    else .ok (acc, st)

/-- The declarator loop inside one local declaration of parse_func. -/
def localDeclLoop : Nat → Ty → List (String × Ty) → PSt →
    Except PErr (List (String × Ty) × PSt)
  | 0, _, _, _ => .error .outOfFuel
  | fuel + 1, lty, acc, st => do
    let (lname, st) ← expectIdent st
    let (b, st) ← eat .comma st
    if b then localDeclLoop fuel lty (acc ++ [(lname, lty)]) st
    else return (acc ++ [(lname, lty)], st)

/-- The body-statement loop of parse_func; stops at the closing brace
without consuming it. -/
def funcStmtsLoop : Nat → List Stmt → PSt → Except PErr (List Stmt × PSt)
  | 0, _, _ => .error .outOfFuel
  | fuel + 1, acc, st =>
    if st.cur = .rbrace then .ok (acc, st)
    else do
      let (s, st) ← parseStmt fuel st
      funcStmtsLoop fuel (acc ++ [s]) st

/-- parse_enum. -/
def parseEnum : Nat → PSt → Except PErr (EnumDecl × PSt)
  | 0, _ => .error .outOfFuel
  | fuel + 1, st => do
    let st ← expect .kwEnum st
    let st ← expect .lbrace st
    let (variants, st) ← enumLoop fuel [] st
    let st ← expect .rbrace st
    return (⟨variants⟩, st)

/-- The variant loop of parse_enum; each initializer must be a literal
number. -/
def enumLoop : Nat → List (String × Option Int) → PSt →
    Except PErr (List (String × Option Int) × PSt)
  | 0, _, _ => .error .outOfFuel
  | fuel + 1, acc, st =>
    if st.cur = .rbrace then .ok (acc, st)
    else do
      let (vname, st) ← expectIdent st
      let (b, st) ← eat .assign st
      let (init, st) ←
        if b then do
          let (e, st) ← parseAssignment fuel st
          match e with
          | .num v => pure (some v, st)
          | _ => Except.error PErr.enumInitNotNum
        else pure (none, st)
      let (b2, st) ← eat .comma st
      if b2 then enumLoop fuel (acc ++ [(vname, init)]) st
      else return (acc ++ [(vname, init)], st)

/-- parse_item: enum, function, or comma-separated globals. -/
def parseItem : Nat → PSt → Except PErr (List Item × PSt)
  | 0, _ => .error .outOfFuel
  | fuel + 1, st =>
    if st.cur = .kwEnum then do
      let (ed, st) ← parseEnum fuel st
      let st ← expect .semicolon st
      return ([Item.enum ed], st)
    else do
      let (ty, st) ← parseTy fuel st
      let (name, st) ← expectIdent st
      let (b, st) ← eat .lparen st
      if b then
        let (fd, st) ← parseFunc fuel name ty st
        return ([Item.function fd], st)
      else
        let (gs, st) ← globalsLoop fuel ty [Item.global ⟨name, ty⟩] st
        let st ← expect .semicolon st
        return (gs, st)

/-- The extra-globals loop of parse_item. -/
def globalsLoop : Nat → Ty → List Item → PSt → Except PErr (List Item × PSt)
  | 0, _, _, _ => .error .outOfFuel
  | fuel + 1, ty, acc, st => do
    let (b, st) ← eat .comma st
    if b then
      let (n, st) ← expectIdent st
      globalsLoop fuel ty (acc ++ [Item.global ⟨n, ty⟩]) st
    else return (acc, st)

/-- The item loop of parse_program. -/
def parseProgramLoop : Nat → List Item → PSt → Except PErr Program
  | 0, _, _ => .error .outOfFuel
  | fuel + 1, acc, st =>
    if st.cur = .eof then .ok ⟨acc⟩
    else do
      let (its, st) ← parseItem fuel st
      parseProgramLoop fuel (acc ++ its) st

end

/-- parse_program on a source string: build the parser and consume the
whole token stream. -/
def parseProgram (fuel : Nat) (src : String) : Except PErr Program := do
  let st ← pNew src
  parseProgramLoop fuel [] st

/-- Entry point used to inspect expression parses: build the parser and
run parse_assignment (the precedence root used by statements). -/
def parseExprStr (fuel : Nat) (src : String) : Except PErr Expr := do
  let st ← pNew src
  let (e, _) ← parseAssignment fuel st
  return e

/- ============= Bytecode compiler and VM (src/vm.rs) ============= -/

/-- Opcodes as dispatched by vm.rs.  vm.rs matches on Imm, Push, the
arithmetic / comparison / bitwise group, Not, Jmp, Jz, Jnz, Exit and
Printf; every other opcode of the instruction set declared in
bytecode.rs (LEA, JSR, ENT, ADJ, LEV, LI, LC, SI, SC and the remaining
syscalls) falls into the catch-all panic arm of VM::run, so those are
included as the unsupported constructors. -/
inductive OpC where
  | imm | push
  | add | sub | mul | div | mod
  | eq | ne | lt | le | gt | ge
  | and | or | xor | shl | shr
  | not
  | jmp | jz | jnz
  | exit | printf
  | lea | jsr | ent | adj | lev | li | lc | si | sc
  | sysOpen | sysRead | sysClos | sysMalc | sysFree | sysMset | sysMcmp
  deriving DecidableEq, Repr

/-- An instruction as vm.rs uses it: an opcode plus an optional i32
operand (Instruction::new / Instruction::with_operand). -/
structure VInstr where
  opcode : OpC
  operand : Option Int
  deriving DecidableEq, Repr

/-- Wrap an integer into i32 two's-complement range (the Rust cast
expression n as i32 and shift-result truncation). -/
def wrap32 (n : Int) : Int := (n + 2 ^ 31) % 2 ^ 32 - 2 ^ 31

/-- i32 range test used by the checked (debug-build) arithmetic. -/
def inRange32 (n : Int) : Prop := -(2 ^ 31) ≤ n ∧ n < 2 ^ 31

instance (n : Int) : Decidable (inRange32 n) := by
  unfold inRange32; infer_instance

/-- Checked i32 result: the overflow panic of a debug build is None. -/
def chk32 (n : Int) : Option Int := if inRange32 n then some n else none

/-- Two's-complement bit pattern of an in-range i32 value. -/
def bits32 (a : Int) : Nat := ((a + 2 ^ 32) % 2 ^ 32).toNat

/-- Interpret a 32-bit pattern as a signed i32 value. -/
def ofBits32 (n : Nat) : Int := wrap32 (Int.ofNat n)

/-- acc = val + acc. -/
def addI32 (a b : Int) : Option Int := chk32 (a + b)

/-- acc = val - acc. -/
def subI32 (a b : Int) : Option Int := chk32 (a - b)

/-- acc = val * acc. -/
def mulI32 (a b : Int) : Option Int := chk32 (a * b)

/-- acc = val / acc: Rust i32 division truncates toward zero and panics
on division by zero; the only overflow (MIN / -1) is caught by the
range check. -/
def divI32 (a b : Int) : Option Int :=
  if b = 0 then none else chk32 (Int.tdiv a b)

/-- acc = val % acc: remainder with the dividend's sign; panics on zero
divisor and on the MIN % -1 overflow. -/
def modI32 (a b : Int) : Option Int :=
  if b = 0 then none
  else if a = -(2 ^ 31) ∧ b = -1 then none
  else some (Int.tmod a b)

/-- Comparisons produce 1 or 0. -/
def eqI32 (a b : Int) : Option Int := some (if a = b then 1 else 0)

def neI32 (a b : Int) : Option Int := some (if a = b then 0 else 1)

def ltI32 (a b : Int) : Option Int := some (if a < b then 1 else 0)

def leI32 (a b : Int) : Option Int := some (if a ≤ b then 1 else 0)

def gtI32 (a b : Int) : Option Int := some (if b < a then 1 else 0)

def geI32 (a b : Int) : Option Int := some (if b ≤ a then 1 else 0)

/-- acc &= val: two's-complement bitwise and. -/
def andI32 (a b : Int) : Option Int :=
  some (ofBits32 (Nat.land (bits32 a) (bits32 b)))

/-- acc |= val. -/
def orI32 (a b : Int) : Option Int :=
  some (ofBits32 (Nat.lor (bits32 a) (bits32 b)))

/-- acc ^= val. -/
def xorI32 (a b : Int) : Option Int :=
  some (ofBits32 (Nat.xor (bits32 a) (bits32 b)))

/-- acc = val << acc: shift amounts outside 0..31 panic in a debug
build; the result keeps the low 32 bits. -/
def shlI32 (a b : Int) : Option Int :=
  if 0 ≤ b ∧ b < 32 then some (wrap32 (a * 2 ^ b.toNat)) else none

/-- acc = val >> acc: arithmetic right shift, i.e. floor division by a
power of two. -/
def shrI32 (a b : Int) : Option Int :=
  if 0 ≤ b ∧ b < 32 then some (Int.fdiv a (2 ^ b.toNat)) else none

/-- usize cast of an i32 jump target (sign-extended to 64 bits, then
reinterpreted). -/
def usizeOfI32 (t : Int) : Nat := (t % 2 ^ 64).toNat

/-- VM runtime state (vm.rs, struct VM): the growable operand stack
(head = top), the program counter and the accumulator. -/
structure VMSt where
  stack : List Int
  pc : Nat
  acc : Int
  deriving DecidableEq, Repr

/-- VM::new: Vec::with_capacity(1024) only pre-allocates; the stack
starts empty, pc and acc start at zero. -/
def vmNew : VMSt := ⟨[], 0, 0⟩

/-- Result of dispatching one instruction. -/
inductive StepRes where
  | cont (s : VMSt)
  | done (v : Int)
  | fault
  deriving DecidableEq, Repr

/-- Pop the operand stack as the left operand and combine with the
accumulator (the shared shape of the binary-operator arms of VM::run);
an empty stack is the Stack underflow panic, an arithmetic None the
overflow/zero panic. -/
def popBin (s : VMSt) (f : Int → Int → Option Int) : StepRes :=
  match s.stack with
  | [] => .fault
  | val :: st =>
    match f val s.acc with
    | some r => .cont { s with stack := st, acc := r }
    | none => .fault

/-- Dispatch one instruction (the match inside VM::run); the state
already has the incremented program counter. -/
def step (i : VInstr) (s : VMSt) : StepRes :=
  match i.opcode with
  | .imm =>
    match i.operand with
    | some n => .cont { s with acc := n }
    | none => .fault
  | .push => .cont { s with stack := s.acc :: s.stack }
  | .add => popBin s addI32
  | .sub => popBin s subI32
  | .mul => popBin s mulI32
  | .div => popBin s divI32
  | .mod => popBin s modI32
  | .eq => popBin s eqI32
  | .ne => popBin s neI32
  | .lt => popBin s ltI32
  | .le => popBin s leI32
  | .gt => popBin s gtI32
  | .ge => popBin s geI32
  | .and => popBin s andI32
  | .or => popBin s orI32
  | .xor => popBin s xorI32
  | .shl => popBin s shlI32
  | .shr => popBin s shrI32
  | .not => .cont { s with acc := -(s.acc + 1) }
  | .jmp =>
    match i.operand with
    | some t => .cont { s with pc := usizeOfI32 t }
    | none => .fault
  | .jz =>
    if s.acc = 0 then
      match i.operand with
      | some t => .cont { s with pc := usizeOfI32 t }
      | none => .fault
    else .cont s
  | .jnz =>
    if s.acc ≠ 0 then
      match i.operand with
      | some t => .cont { s with pc := usizeOfI32 t }
      | none => .fault
    else .cont s
  | .exit => .done s.acc
  | .printf => .cont s
  | _ => .fault

/-- VM::run: the fetch/advance/dispatch loop.  Leaving the code range
returns the accumulator; the fuel bounds the number of iterations of
the Rust while loop, with None covering both exhaustion and a panic. -/
def run (code : List VInstr) : Nat → VMSt → Option Int
  | 0, _ => none
  | fuel + 1, s =>
    match code.get? s.pc with
    | none => some s.acc
    | some i =>
      match step i { s with pc := s.pc + 1 } with
      | .cont s' => run code fuel s'
      | .done v => some v
      | .fault => none

/-- The operator instruction emitted for a binary expression
(the match in compile_expr); unsupported operators are the
unimplemented! panic. -/
def opInstrOf : BinOp → Option VInstr
  | .add => some ⟨.add, none⟩
  | .sub => some ⟨.sub, none⟩
  | .mul => some ⟨.mul, none⟩
  | .div => some ⟨.div, none⟩
  | .mod => some ⟨.mod, none⟩
  | .eq => some ⟨.eq, none⟩
  | .ne => some ⟨.ne, none⟩
  | .lt => some ⟨.lt, none⟩
  | .le => some ⟨.le, none⟩
  | .gt => some ⟨.gt, none⟩
  | .ge => some ⟨.ge, none⟩
  | .bitAnd => some ⟨.and, none⟩
  | .bitOr => some ⟨.or, none⟩
  | .xor => some ⟨.xor, none⟩
  | .shl => some ⟨.shl, none⟩
  | .shr => some ⟨.shr, none⟩
  | _ => none

mutual

/-- compile_expr (vm.rs): extend the code vector; None models the
panics and unimplemented! arms.  Numeric literals go through the
n as i32 cast of the source. -/
def cExpr : Expr → List VInstr → Option (List VInstr)
  | .num n, code => some (code ++ [⟨.imm, some (wrap32 n)⟩])
  | .unary op e, code => do
    let c1 ← cExpr e code
    match op with
    | .neg => some (c1 ++ [⟨.imm, some 0⟩, ⟨.sub, none⟩])
    | .not => some (c1 ++ [⟨.not, none⟩])
    | _ => none
  | .binary op l r, code => do
    let c1 ← cExpr l code
    let c2 ← cExpr r (c1 ++ [⟨.push, none⟩])
    let i ← opInstrOf op
    some (c2 ++ [i])
  | .conditional c t e, code => do
    let c1 ← cExpr c code
    let jzPos := c1.length
    let c2 ← cExpr t (c1 ++ [⟨.jz, some 0⟩])
    let jmpPos := c2.length
    let c3 := c2 ++ [⟨.jmp, some 0⟩]
    let c4 := c3.set jzPos ⟨.jz, some (Int.ofNat c3.length)⟩
    let c5 ← cExpr e c4
    some (c5.set jmpPos ⟨.jmp, some (Int.ofNat c5.length)⟩)
  | .var _, _ => none
  | .call callee args, code =>
    match callee with
    | .var name =>
      if name = "printf" then do
        let c1 ← cArgsRev args code
        some (c1 ++ [⟨.printf, some (Int.ofNat args.length)⟩])
      else none
    | _ => none
  | _, _ => none

/-- The reversed-argument loop of the printf case of compile_expr:
arguments are compiled last-to-first, each followed by a push. -/
def cArgsRev : List Expr → List VInstr → Option (List VInstr)
  | [], code => some code
  | a :: rest, code => do
    let c1 ← cArgsRev rest code
    let c2 ← cExpr a c1
    some (c2 ++ [⟨.push, none⟩])

end

mutual

/-- compile_stmt (vm.rs). -/
def cStmt : Stmt → List VInstr → Option (List VInstr)
  | .exprS e, code => cExpr e code
  | .ret (some e), code => do
    let c1 ← cExpr e code
    some (c1 ++ [⟨.exit, none⟩])
  | .ret none, code => some (code ++ [⟨.exit, none⟩])
  | .block stmts, code => cStmtList stmts code
  | .sIf cond thenB elseB, code => do
    let c1 ← cExpr cond code
    let jzPos := c1.length
    let c2 ← cStmt thenB (c1 ++ [⟨.jz, some 0⟩])
    match elseB with
    | some els => do
      let jmpPos := c2.length
      let c3 := c2 ++ [⟨.jmp, some 0⟩]
      let c4 := c3.set jzPos ⟨.jz, some (Int.ofNat c3.length)⟩
      let c5 ← cStmt els c4
      some (c5.set jmpPos ⟨.jmp, some (Int.ofNat c5.length)⟩)
    | none =>
      some (c2.set jzPos ⟨.jz, some (Int.ofNat c2.length)⟩)
  | .sWhile cond body, code => do
    let loopStart := code.length
    let c1 ← cExpr cond code
    let jzPos := c1.length
    let c2 ← cStmt body (c1 ++ [⟨.jz, some 0⟩])
    let c3 := c2 ++ [⟨.jmp, some (Int.ofNat loopStart)⟩]
    some (c3.set jzPos ⟨.jz, some (Int.ofNat c3.length)⟩)
  | .empty, code => some code

/-- compile_block (vm.rs): compile the statements in order. -/
def cStmtList : List Stmt → List VInstr → Option (List VInstr)
  | [], code => some code
  | s :: rest, code => do
    let c1 ← cStmt s code
    cStmtList rest c1

end

/-- The item loop of compile (vm.rs): only functions named main are
compiled (their body inline, followed by Exit); everything else is
skipped. -/
def compileItems : List Item → List VInstr → Option (List VInstr)
  | [], code => some code
  | item :: rest, code =>
    match item with
    | .function fd =>
      if fd.name = "main" then do
        let c1 ← cStmtList fd.body.stmts code
        compileItems rest (c1 ++ [⟨.exit, none⟩])
      else compileItems rest code
    | _ => compileItems rest code

/-- compile (vm.rs): compile a program to the instruction vector. -/
def compile (p : Program) : Option (List VInstr) :=
  compileItems p.items []

/-- The full pipeline result on a compiled program: run the VM from the
fresh VM::new state.  The fuel code.length + 1 is exactly enough for
any straight-line (jump-free) program, which is the fragment the
round-trip claims quantify over. -/
def compileAndRun (p : Program) : Option Int :=
  match compile p with
  | none => none
  | some code => run code (code.length + 1) vmNew

/- ========== Reference evaluator for literal arithmetic ========== -/

/-- The binary-operator semantics in left-operand-first form, shared
with the VM dispatch: the first argument is the left operand (the value
popped from the stack), the second the right (the accumulator). -/
def binFn : BinOp → Int → Int → Option Int
  | .add => addI32
  | .sub => subI32
  | .mul => mulI32
  | .div => divI32
  | .mod => modI32
  | .eq => eqI32
  | .ne => neI32
  | .lt => ltI32
  | .le => leI32
  | .gt => gtI32
  | .ge => geI32
  | .bitAnd => andI32
  | .bitOr => orI32
  | .xor => xorI32
  | .shl => shlI32
  | .shr => shrI32
  | _ => fun _ _ => none

/-- Literal-valued arithmetic expressions: integer literals combined by
the non-assignment, non-short-circuit binary operators; no calls, no
variables.  This is the fragment the round-trip claim quantifies
over. -/
def arithOnly : Expr → Bool
  | .num _ => true
  | .binary op l r => (opInstrOf op).isSome && arithOnly l && arithOnly r
  | _ => false

/-- Modelled from the spec: direct evaluation of literal arithmetic
with the stated operand order — for each binary operator the left
operand is evaluated first and the result is left OP right. -/
def evalA : Expr → Option Int
  | .num n => some (wrap32 n)
  | .binary op l r => do
    let a ← evalA l
    let b ← evalA r
    binFn op a b
  | _ => none

/-- The straight-line code emitted for a literal arithmetic expression
(the append-only normal form of compile_expr on this fragment). -/
def ces : Expr → List VInstr
  | .num n => [⟨.imm, some (wrap32 n)⟩]
  | .binary op l r =>
    ces l ++ [⟨.push, none⟩] ++ ces r ++
      (match opInstrOf op with
       | some i => [i]
       | none => [])
  | _ => []

/-- The straight-line code a statement of the literal-arithmetic
fragment compiles to. -/
def stmtCes : Stmt → List VInstr
  | .exprS m => ces m
  | .ret (some m) => ces m ++ [⟨.exit, none⟩]
  | .ret none => [⟨.exit, none⟩]
  | _ => []

/-- The code emitted for a list of straight-line statements. -/
def straightFlat (l : List Stmt) : List VInstr := (l.map stmtCes).flatten

/-- A statement that evaluates a defined literal-arithmetic expression
for effect, or does nothing: the statements a main body may contain
before its first return in the round-trip fragment. -/
def discardable (s : Stmt) : Prop :=
  s = Stmt.empty ∨
    ∃ m w, s = Stmt.exprS m ∧ arithOnly m = true ∧ evalA m = some w

/-- A straight-line statement of the literal-arithmetic fragment:
empty, an expression statement, or a return. -/
def straightStmt (s : Stmt) : Prop :=
  discardable s ∨
    (∃ m w, s = Stmt.ret (some m) ∧ arithOnly m = true ∧ evalA m = some w) ∨
    s = Stmt.ret none

/-- Root-shape test for the ternary, used to state the precedence
claims. -/
def isCondRoot : Expr → Bool
  | .conditional _ _ _ => true
  | _ => false

/-- No unescaped closing double quote before the input ends: the
condition under which the string-literal scan runs off the end. -/
def noClose : List Char → Bool
  | [] => true
  | '"' :: _ => false
  | '\\' :: [] => true
  | '\\' :: _ :: rest => noClose rest
  | _ :: rest => noClose rest

/-- Modelled from the spec: the characters accumulated by the string
scan with the escape rule applied — backslash-n becomes a newline, any
other escaped character passes through, a trailing lone backslash
contributes nothing. -/
def escContent : List Char → List Char
  | [] => []
  | '\\' :: [] => []
  | '\\' :: e :: rest => escChar e :: escContent rest
  | c :: rest => c :: escContent rest

/-- The frame round-trip bytecode of tests/vm_tests.rs
(test_stack_and_load_store): a call to a subroutine that allocates one
local, stores 123 into it, loads it back and returns. -/
def frameSeq : List VInstr :=
  [⟨.jsr, some 2⟩, ⟨.exit, none⟩, ⟨.ent, some 1⟩, ⟨.imm, some 123⟩,
   ⟨.push, none⟩, ⟨.lea, some 0⟩, ⟨.si, none⟩, ⟨.lea, some 0⟩,
   ⟨.li, none⟩, ⟨.lev, none⟩]

/-- The parsed form of int main() with body return 1;. -/
def fdMain1 : FuncDef :=
  ⟨Ty.int, "main", [], [], ⟨[Stmt.ret (some (Expr.num 1)), Stmt.empty]⟩⟩

/-- A one-item program holding fdMain1. -/
def pMain1 : Program := ⟨[Item.function fdMain1]⟩

/- ===================== Basic VM lemmas ===================== -/

theorem run_succ (code : List VInstr) (fuel : Nat) (s : VMSt) :
    run code (fuel + 1) s =
      match code.get? s.pc with
      | none => some s.acc
      | some i =>
        match step i { s with pc := s.pc + 1 } with
        | .cont s' => run code fuel s'
        | .done v => some v
        | .fault => none := rfl

theorem get?_append_cons {α : Type} (pre : List α) (x : α) (t : List α) :
    (pre ++ x :: t).get? pre.length = some x := by
  rw [List.get?_append_right (le_refl _)]
  simp

/- ===================== Claim C10 ===================== -/

/-- C10: if the program counter is at or past the end of the
instruction sequence, run terminates normally with the current
accumulator value (the while-loop condition fails); in particular run
on the empty instruction sequence from the fresh VM state returns 0. -/
theorem c10_run_off_end :
    (∀ (code : List VInstr) (fuel : Nat) (s : VMSt),
        code.length ≤ s.pc → run code (fuel + 1) s = some s.acc) ∧
    run [] 1 vmNew = some 0 := by
  constructor
  · intro code fuel s h
    have hn : code.get? s.pc = none := List.get?_eq_none.mpr h
    rw [run_succ, hn]
  · rfl

theorem c10_run_off_end_witness :
    run [⟨.imm, some 3⟩] 1 ⟨[], 5, 7⟩ = some 7 :=
  c10_run_off_end.1 [⟨.imm, some 3⟩] 0 ⟨[], 5, 7⟩ (by decide)

/- ===================== Claim C5 ===================== -/

/-- C5: the frame store/load round trip of the spec (and of
tests/vm_tests.rs test_stack_and_load_store) does not return the stored
value: VM::run has no dispatch arms for JSR/ENT/LEA/SI/LI/LEV, so the
very first call instruction hits the catch-all panic arm and execution
faults instead of producing 123. -/
theorem c5_frame_roundtrip_faults :
    run frameSeq 20 vmNew = none ∧
    step ⟨.jsr, some 2⟩ ⟨[], 1, 0⟩ = .fault := ⟨rfl, rfl⟩

/- ===================== Claim C6 ===================== -/

/-- C6 counterexample: with the operand stack already holding 1024
cells (the alleged fixed capacity from Vec::with_capacity(1024)), a
push-accumulator instruction does not fault: the stack grows to 1025
cells and execution continues to a normal exit. -/
theorem c6_counterexample :
    run [⟨.push, none⟩, ⟨.exit, none⟩] 2 ⟨List.replicate 1024 0, 0, 5⟩ = some 5 ∧
    step ⟨.push, none⟩ ⟨List.replicate 1024 0, 1, 5⟩ =
      .cont ⟨5 :: List.replicate 1024 0, 1, 5⟩ ∧
    1024 < (5 :: List.replicate 1024 (0 : Int)).length := by
  refine ⟨rfl, rfl, ?_⟩
  rw [List.length_cons, List.length_replicate]
  omega

/-- C6 amended: the operand stack is a growable vector and
Vec::with_capacity(1024) only pre-allocates; a push-accumulator
instruction always succeeds, prepending the accumulator to the stack,
and never terminates execution. -/
theorem c6_push_never_faults (opnd : Option Int) (st : VMSt) :
    step ⟨.push, opnd⟩ st = .cont { st with stack := st.acc :: st.stack } := rfl

/- ===================== Claim C3 ===================== -/

/-- C3 counterexample: the expression a || b ? c : d does not parse to
the conditional whose condition is the disjunction a || b. -/
theorem c3_counterexample :
    parseExprStr 100 ("a || b ? c : d") ≠
      .ok (.conditional (.binary .logOr (.var "a") (.var "b"))
            (.var "c") (.var "d")) := by
  intro h
  rw [show parseExprStr 100 ("a || b ? c : d") =
        .ok (.binary .logOr (.var "a")
              (.conditional (.var "b") (.var "c") (.var "d"))) from rfl] at h
  simp at h

/-- C3 amended: in the parser the ternary binds tighter than both
logical-and and logical-or (parse_logical_and takes its operands from
parse_conditional, whose condition comes from parse_bitwise_or), so
a || b ? c : d is the disjunction whose right operand is a conditional,
and likewise under logical-and; the root is not a conditional. -/
theorem c3_ternary_binds_tighter :
    parseExprStr 100 ("a || b ? c : d") =
      .ok (.binary .logOr (.var "a")
            (.conditional (.var "b") (.var "c") (.var "d"))) ∧
    parseExprStr 100 ("a && b ? c : d") =
      .ok (.binary .logAnd (.var "a")
            (.conditional (.var "b") (.var "c") (.var "d"))) ∧
    isCondRoot (.binary .logOr (.var "a")
      (.conditional (.var "b") (.var "c") (.var "d"))) = false :=
  ⟨rfl, rfl, rfl⟩

/- ===================== Claim C4 ===================== -/

/-- C4 counterexample: lexing 0x1A3F yields a lexical error, not the
numeric token 6719: the scanned slice passed to the numeric conversion
still carries the 0x prefix, which from_str_radix rejects. -/
theorem c4_counterexample :
    nextToken ("0x1A3F".toList) = (.error .invalidNum, []) := rfl

/-- C4 amended: a leading 0 followed by an octal digit scans octal and
produces the numeric value (0755 lexes to 493); a leading 0 followed by
x or X consumes the hexadecimal digits but produces a lexical error,
because the slice handed to the numeric conversion includes the 0x
prefix. -/
theorem c4_octal_ok_hex_errors :
    nextToken ("0755".toList) = (.ok (.num 493), []) ∧
    nextToken ("0x1A3F".toList) = (.error .invalidNum, []) ∧
    nextToken ("0XdeadBEEF".toList) = (.error .invalidNum, []) ∧
    nextToken ("493".toList) = (.ok (.num 493), []) :=
  ⟨rfl, rfl, rfl, rfl⟩

/- ===================== Lexer lemmas (C7, C8) ===================== -/

theorem mkNumTok_ne (r : Nat) (s rest : List Char) :
    (mkNumTok r s rest).1 ≠ .ok .eof := by
  unfold mkNumTok; split <;> simp

theorem scanNum_ne (ch : Char) (rest : List Char) :
    (scanNum ch rest).1 ≠ .ok .eof := by
  unfold scanNum
  repeat' split
  all_goals apply mkNumTok_ne

theorem kwOrIdent_ne (s : String) : kwOrIdent s ≠ .eof := by
  unfold kwOrIdent; split <;> simp

theorem scanCharLit_ne (rest : List Char) : (scanCharLit rest).1 ≠ .ok .eof := by
  unfold scanCharLit; repeat' split
  all_goals simp

theorem twoCharTok_ne (a b : Char) : twoCharTok a b ≠ some .eof := by
  unfold twoCharTok
  split <;> first
    | (split_ifs <;> simp)
    | simp

theorem singleTok_ne (c : Char) : singleTok c ≠ .ok .eof := by
  unfold singleTok; split <;> simp

/-- Every branch of the token scan proper produces a non-eof token or a
lexical error: the end marker arises only from exhausted input. -/
theorem nextTokenAt_ne (c : Char) (rest : List Char) :
    (nextTokenAt c rest).1 ≠ .ok .eof := by
  unfold nextTokenAt
  split_ifs with h1 h2 h3 h4
  · exact scanNum_ne c rest
  · simp only [scanIdent]
    simp
    exact kwOrIdent_ne _
  · rcases hsr : scanStr rest [] with ⟨s, r⟩
    simp [hsr]
  · exact scanCharLit_ne rest
  · cases rest with
    | nil => exact singleTok_ne c
    | cons b r2 =>
      cases htc : twoCharTok c b with
      | some t =>
        have ht : t ≠ .eof := by intro he; subst he; exact twoCharTok_ne c b htc
        simp [htc, ht]
      | none => simp [htc]; exact singleTok_ne c

/-- When next_token returns the end marker, the whole input has been
consumed. -/
theorem nextToken_eof_rest (cs cs' : List Char)
    (h : nextToken cs = (.ok .eof, cs')) : cs' = [] := by
  unfold nextToken at h
  cases hs : skipWS cs with
  | nil => rw [hs] at h; exact ((Prod.ext_iff.mp h).2).symm
  | cons c r =>
    rw [hs] at h
    exact absurd (congrArg Prod.fst h) (nextTokenAt_ne c r)

/-- C7: once next_token has reached end-of-input and returned the end
marker, the lexer state is exhausted and every subsequent call returns
the end marker again with the state unchanged (the returned state is a
fixed point).  Determinism of re-lexing is immediate because the
embedded lexer is a pure function of the remaining input. -/
theorem c7_eof_forever (cs cs' : List Char)
    (h : nextToken cs = (.ok Token.eof, cs')) :
    nextToken cs' = (.ok Token.eof, cs') := by
  have h0 := nextToken_eof_rest cs cs' h
  subst h0
  rfl

theorem c7_eof_forever_witness : nextToken [] = (.ok Token.eof, []) :=
  c7_eof_forever (" ".toList) [] rfl

/-- The string-literal loop on input with no closing quote consumes
everything and accumulates the escape-processed characters. -/
theorem scanStr_noClose : ∀ (cs acc : List Char), noClose cs = true →
    scanStr cs acc = (acc ++ escContent cs, []) := by
  intro cs acc
  induction cs, acc using scanStr.induct with
  | case1 acc => intro _; simp [scanStr, escContent]
  | case2 r acc => intro h; simp [noClose] at h
  | case3 acc => intro _; simp [scanStr, escContent]
  | case4 e r acc ih =>
    intro h
    have h' : noClose r = true := by simpa [noClose] using h
    have heq := ih h'
    simp [scanStr, escContent, heq]
  | case5 c r acc hne hne2 hne3 ih =>
    intro h
    have hcq : c ≠ '"' := fun hh => hne hh
    have hcb : c ≠ '\\' := by
      intro hh
      cases r with
      | nil => exact hne2 hh rfl
      | cons e r1 => exact hne3 e r1 hh rfl
    have h' : noClose r = true := by
      rw [show noClose (c :: r) = noClose r from by simp [noClose, hcq, hcb]] at h
      exact h
    have heq := ih h'
    simp [scanStr, escContent, heq, hcq, hcb]

/-- C8: when the opening double quote is never matched before the input
ends, next_token returns a string token holding exactly the accumulated
characters with the escape rule applied, consuming the whole input —
not a lexical error. -/
theorem c8_unterminated_string (cs : List Char) (h : noClose cs = true) :
    nextToken ('"' :: cs) = (.ok (.str (String.mk (escContent cs))), []) := by
  have h1 : nextToken ('"' :: cs) =
      (match scanStr cs [] with
       | (s, r) => (Except.ok (Token.str ⟨s⟩), r)) := rfl
  rw [h1, scanStr_noClose cs [] h]
  simp

theorem c8_unterminated_string_witness :
    nextToken ("\"no e\\nd".toList) = (.ok (.str "no e\nd"), []) :=
  c8_unterminated_string ("no e\\nd".toList) (by decide)

/- ===================== Parser lemmas (C9) ===================== -/

/-- parse_func always appends one extra empty statement to the body. -/
theorem parseFunc_body (fuel : Nat) (name : String) (ty : Ty) (st : PSt)
    (fd : FuncDef) (st' : PSt) (h : parseFunc fuel name ty st = .ok (fd, st')) :
    ∃ l, fd.body.stmts = l ++ [Stmt.empty] := by
  cases fuel with
  | zero => simp [parseFunc] at h
  | succ f =>
    simp only [parseFunc, bind, Except.bind, pure, Except.pure] at h
    repeat' split at h
    all_goals try (cases h)
    all_goals exact ⟨_, rfl⟩

/-- The comma-globals loop only adds global items. -/
theorem globalsLoop_functions : ∀ (fuel : Nat) (ty : Ty) (acc : List Item)
    (st : PSt) (its : List Item) (st' : PSt),
    globalsLoop fuel ty acc st = .ok (its, st') →
    ∀ fd, Item.function fd ∈ its → Item.function fd ∈ acc := by
  intro fuel
  induction fuel with
  | zero => intro ty acc st its st' h; simp [globalsLoop] at h
  | succ f ih =>
    intro ty acc st its st' h
    simp only [globalsLoop, bind, Except.bind, pure, Except.pure] at h
    repeat' split at h
    all_goals try (cases h)
    · intro fd hm
      have := ih _ _ _ _ _ h fd hm
      rcases List.mem_append.mp this with hl | hr
      · exact hl
      · simp at hr
    · intro fd hm; exact hm

/-- Every function item a top-level item parse returns has the extra
trailing empty statement. -/
theorem parseItem_functions (fuel : Nat) (st : PSt) (its : List Item) (st' : PSt)
    (h : parseItem fuel st = .ok (its, st')) :
    ∀ fd, Item.function fd ∈ its → ∃ l, fd.body.stmts = l ++ [Stmt.empty] := by
  cases fuel with
  | zero => simp [parseItem] at h
  | succ f =>
    simp only [parseItem, bind, Except.bind, pure, Except.pure] at h
    repeat' split at h
    all_goals try (cases h)
    · intro fd hm; simp at hm
    · intro fd hm
      simp at hm
      subst hm
      exact parseFunc_body f _ _ _ _ _ (by assumption)
    · intro fd hm
      have := globalsLoop_functions f _ _ _ _ _ (by assumption) fd hm
      simp at this

theorem parseProgramLoop_functions : ∀ (fuel : Nat) (acc : List Item) (st : PSt)
    (p : Program), parseProgramLoop fuel acc st = .ok p →
    (∀ fd, Item.function fd ∈ acc → ∃ l, fd.body.stmts = l ++ [Stmt.empty]) →
    ∀ fd, Item.function fd ∈ p.items → ∃ l, fd.body.stmts = l ++ [Stmt.empty] := by
  intro fuel
  induction fuel with
  | zero => intro acc st p h; simp [parseProgramLoop] at h
  | succ f ih =>
    intro acc st p h hacc
    simp only [parseProgramLoop, bind, Except.bind, pure, Except.pure] at h
    repeat' split at h
    all_goals try (cases h)
    · exact hacc
    · intro fd hm
      refine ih _ _ _ h ?_ fd hm
      intro fd' hm'
      rcases List.mem_append.mp hm' with hl | hr
      · exact hacc fd' hl
      · exact parseItem_functions f _ _ _ (by assumption) fd' hr

/-- C9: every function definition returned by the parser has a
non-empty body statement list whose last element is the empty
statement — parse_func appends one extra empty statement after the
statements written in the source. -/
theorem c9_body_ends_empty (fuel : Nat) (src : String) (p : Program)
    (h : parseProgram fuel src = .ok p) :
    ∀ fd, Item.function fd ∈ p.items →
      fd.body.stmts ≠ [] ∧ fd.body.stmts.getLast? = some Stmt.empty := by
  intro fd hm
  simp only [parseProgram, bind, Except.bind] at h
  split at h
  · cases h
  · obtain ⟨l, hl⟩ := parseProgramLoop_functions fuel [] _ p h (by simp) fd hm
    refine ⟨?_, ?_⟩
    · rw [hl]; simp
    · rw [hl]; exact List.getLast?_concat l

theorem c9_body_ends_empty_witness :
    fdMain1.body.stmts ≠ [] ∧ fdMain1.body.stmts.getLast? = some Stmt.empty :=
  c9_body_ends_empty 100 ("int main()\x7b return 1; \x7d") pMain1 rfl fdMain1
    (List.Mem.head _)

/- ===================== Claim C2 ===================== -/

/-- Items without a main function compile to nothing: the generator
skips them and leaves the code vector unchanged. -/
theorem compileItems_no_main : ∀ (items : List Item) (code : List VInstr),
    (∀ fd, Item.function fd ∈ items → fd.name ≠ "main") →
    compileItems items code = some code := by
  intro items
  induction items with
  | nil => intro code _; rfl
  | cons it rest ih =>
    intro code h
    cases it with
    | function fd =>
      have hne : fd.name ≠ "main" := h fd (List.Mem.head _)
      simp only [compileItems, hne, if_false]
      exact ih code fun fd' hm => h fd' (List.Mem.tail _ hm)
    | global g =>
      simp only [compileItems]
      exact ih code fun fd' hm => h fd' (List.Mem.tail _ hm)
    | enum e =>
      simp only [compileItems]
      exact ih code fun fd' hm => h fd' (List.Mem.tail _ hm)

/-- C2 counterexample: for the program int main() with body return 1;
the generated bytecode starts with the compiled body (an immediate
load), not with a call to main's entry point followed by exit; no call
opcode appears anywhere in the output. -/
theorem c2_counterexample :
    compile pMain1 = some [⟨.imm, some 1⟩, ⟨.exit, none⟩, ⟨.exit, none⟩] ∧
    ((compile pMain1).getD []).map VInstr.opcode = [.imm, .exit, .exit] ∧
    OpC.jsr ∉ ((compile pMain1).getD []).map VInstr.opcode := by
  refine ⟨rfl, rfl, by decide⟩

/-- C2 amended: the code generator emits no entry sequence at all: it
compiles only the function named main, splicing main's body inline
starting at instruction index 0 followed by one exit instruction, and
ignores every other top-level item (globals, enums and non-main
functions contribute no code). -/
theorem c2_main_inlined (pre post : List Item) (fd : FuncDef)
    (bodyCode : List VInstr)
    (hpre : ∀ f, Item.function f ∈ pre → f.name ≠ "main")
    (hmain : fd.name = "main")
    (hpost : ∀ f, Item.function f ∈ post → f.name ≠ "main")
    (hbody : cStmtList fd.body.stmts [] = some bodyCode) :
    compile ⟨pre ++ Item.function fd :: post⟩ =
      some (bodyCode ++ [⟨.exit, none⟩]) := by
  unfold compile
  have hstep : ∀ (l : List Item) (code : List VInstr),
      (∀ f, Item.function f ∈ l → f.name ≠ "main") →
      compileItems (l ++ Item.function fd :: post) code =
        compileItems (Item.function fd :: post) code := by
    intro l
    induction l with
    | nil => intro code _; rfl
    | cons it rest ih =>
      intro code h
      cases it with
      | function f =>
        have hne : f.name ≠ "main" := h f (List.Mem.head _)
        simp only [List.cons_append, compileItems, hne, if_false]
        exact ih code fun f' hm => h f' (List.Mem.tail _ hm)
      | global g =>
        simp only [List.cons_append, compileItems]
        exact ih code fun f' hm => h f' (List.Mem.tail _ hm)
      | enum e =>
        simp only [List.cons_append, compileItems]
        exact ih code fun f' hm => h f' (List.Mem.tail _ hm)
  rw [hstep pre [] hpre]
  simp only [compileItems, hmain, if_true, hbody, Option.bind_eq_bind,
    Option.some_bind]
  exact compileItems_no_main post _ hpost

theorem c2_main_inlined_witness :
    compile ⟨[Item.global ⟨"g", Ty.int⟩, Item.function fdMain1]⟩ =
      some [⟨.imm, some 1⟩, ⟨.exit, none⟩, ⟨.exit, none⟩] :=
  c2_main_inlined [Item.global ⟨"g", Ty.int⟩] [] fdMain1
    [⟨.imm, some 1⟩, ⟨.exit, none⟩] (by simp) rfl (by simp) rfl

/- ===================== Claim C1 ===================== -/

/-- Dispatching an emitted operator instruction pops the stack as the
left operand and combines it with the accumulator via the shared
operator semantics. -/
theorem step_opInstr (op : BinOp) (i : VInstr) (hi : opInstrOf op = some i)
    (st : VMSt) : step i st = popBin st (binFn op) := by
  cases op <;> simp only [opInstrOf, Option.some.injEq] at hi <;>
    (try cases hi) <;> (try rfl)

theorem run_pc_congr (code : List VInstr) (f : Nat) (s : List Int) (a : Int)
    {pc1 pc2 : Nat} (h : pc1 = pc2) :
    run code f ⟨s, pc1, a⟩ = run code f ⟨s, pc2, a⟩ := by rw [h]

theorem run_fuel_congr (code : List VInstr) (st : VMSt) {f1 f2 : Nat}
    (h : f1 = f2) : run code f1 st = run code f2 st := by rw [h]

theorem cExpr_arith : ∀ (e : Expr), arithOnly e = true →
    ∀ code, cExpr e code = some (code ++ ces e)
  | .num n, _, code => rfl
  | .binary op l r, h, code => by
    simp only [arithOnly, Bool.and_eq_true] at h
    obtain ⟨⟨hop, hal⟩, har⟩ := h
    obtain ⟨i, hi⟩ := Option.isSome_iff_exists.mp hop
    have ihl := cExpr_arith l hal code
    have ihr := cExpr_arith r har (code ++ ces l ++ [⟨.push, none⟩])
    simp only [cExpr, bind, Option.bind, ihl]
    rw [show (code ++ ces l) ++ [(⟨.push, none⟩ : VInstr)]
        = code ++ ces l ++ [⟨.push, none⟩] from rfl] at ihr
    simp only [ihr, hi, ces]
    simp [List.append_assoc]
  | .str s, h, code => by simp [arithOnly] at h
  | .var x, h, code => by simp [arithOnly] at h
  | .unary op e, h, code => by simp [arithOnly] at h
  | .call c args, h, code => by simp [arithOnly] at h
  | .cast t e, h, code => by simp [arithOnly] at h
  | .sizeOf t, h, code => by simp [arithOnly] at h
  | .conditional c t e, h, code => by simp [arithOnly] at h
  | .index a b, h, code => by simp [arithOnly] at h

theorem run_instr (pre post code : List VInstr) (i : VInstr)
    (hc : code = pre ++ i :: post) (f : Nat) (stk : List Int) (a : Int)
    (s' : VMSt) (hstep : step i ⟨stk, pre.length + 1, a⟩ = .cont s') :
    run code (f + 1) ⟨stk, pre.length, a⟩ = run code f s' := by
  rw [run_succ]
  have hg : code.get? pre.length = some i := by
    rw [hc]; exact get?_append_cons pre i post
  rw [hg]
  show (match step i ⟨stk, pre.length + 1, a⟩ with
        | StepRes.cont s2 => run code f s2
        | StepRes.done v => some v
        | StepRes.fault => none) = _
  rw [hstep]

/-- Compiled straight-line arithmetic runs from any surrounding code
context: starting at the segment with any stack and accumulator, the
machine walks the segment and ends with the expression's value in the
accumulator and the stack unchanged. -/
theorem ces_run : ∀ (e : Expr), arithOnly e = true → ∀ (v : Int), evalA e = some v →
    ∀ (pre post code : List VInstr) (s : List Int) (a : Int) (f : Nat),
      code = pre ++ ces e ++ post →
      run code ((ces e).length + f) ⟨s, pre.length, a⟩
        = run code f ⟨s, pre.length + (ces e).length, v⟩
  | .num n, _, v, hv, pre, post, code, s, a, f, hc => by
    have hv' : v = wrap32 n := by
      simp only [evalA, Option.some.injEq] at hv
      exact hv.symm
    subst hv'
    have h1 := run_instr pre post code ⟨.imm, some (wrap32 n)⟩
      (by rw [hc]
          simp only [ces, List.append_assoc, List.singleton_append,
            List.nil_append])
      f s a ⟨s, pre.length + 1, wrap32 n⟩ rfl
    calc run code ((ces (Expr.num n)).length + f) ⟨s, pre.length, a⟩
        = run code (f + 1) ⟨s, pre.length, a⟩ :=
          run_fuel_congr code _ (by simp [ces]; omega)
      _ = run code f ⟨s, pre.length + 1, wrap32 n⟩ := h1
      _ = run code f ⟨s, pre.length + (ces (Expr.num n)).length, wrap32 n⟩ :=
          run_pc_congr code f s (wrap32 n) (by simp [ces])
  | .binary op l r, h, v, hv, pre, post, code, s, a, f, hc => by
    simp only [arithOnly, Bool.and_eq_true] at h
    obtain ⟨⟨hop, hal⟩, har⟩ := h
    obtain ⟨i, hi⟩ := Option.isSome_iff_exists.mp hop
    have hv2 : Option.bind (evalA l)
        (fun x => Option.bind (evalA r) (fun y => binFn op x y)) = some v := by
      simpa only [evalA, bind] using hv
    cases hel : evalA l with
    | none => rw [hel] at hv2; cases hv2
    | some a1 =>
      cases her : evalA r with
      | none => rw [hel, her] at hv2; simp at hv2
      | some b1 =>
        simp only [hel, her, Option.some_bind] at hv2
        have hces : ces (.binary op l r)
            = ces l ++ [⟨.push, none⟩] ++ ces r ++ [i] := by
          simp [ces, hi]
        -- landmarks in the code vector
        have hsplit2 : code = (pre ++ ces l) ++ ⟨.push, none⟩ ::
            (ces r ++ i :: post) := by
          rw [hc, hces]
          simp only [List.append_assoc, List.singleton_append, List.cons_append, List.nil_append]
        have hsplit4 : code = (pre ++ ces l ++ ⟨.push, none⟩ :: ces r)
            ++ i :: post := by
          rw [hc, hces]
          simp only [List.append_assoc, List.singleton_append, List.cons_append, List.nil_append]
        have step1 := ces_run l hal a1 hel pre
          (⟨.push, none⟩ :: (ces r ++ i :: post)) code s a
          ((ces r).length + 1 + (1 + f))
          (by rw [hsplit2]
              try simp only [List.append_assoc, List.cons_append, List.nil_append])
        have step2 := run_instr (pre ++ ces l) (ces r ++ i :: post) code
          ⟨.push, none⟩ hsplit2 ((ces r).length + (1 + f)) s a1
          ⟨a1 :: s, (pre ++ ces l).length + 1, a1⟩ rfl
        have step3 := ces_run r har b1 her (pre ++ ces l ++ [⟨.push, none⟩])
          (i :: post) code (a1 :: s) a1 (1 + f)
          (by rw [hsplit2]
              try simp only [List.append_assoc, List.singleton_append,
                List.cons_append, List.nil_append])
        have hstep4 : step i ⟨a1 :: s,
            (pre ++ ces l ++ ⟨.push, none⟩ :: ces r).length + 1, b1⟩
            = .cont ⟨s, (pre ++ ces l ++ ⟨.push, none⟩ :: ces r).length + 1, v⟩ := by
          rw [step_opInstr op i hi]
          simp [popBin, hv2]
        have step4 := run_instr (pre ++ ces l ++ ⟨.push, none⟩ :: ces r) post
          code i hsplit4 f (a1 :: s) b1
          ⟨s, (pre ++ ces l ++ ⟨.push, none⟩ :: ces r).length + 1, v⟩ hstep4
        calc run code ((ces (Expr.binary op l r)).length + f) ⟨s, pre.length, a⟩
            = run code ((ces l).length + ((ces r).length + 1 + (1 + f)))
                ⟨s, pre.length, a⟩ :=
              run_fuel_congr code _ (by
                rw [hces]
                simp only [List.length_append, List.length_cons, List.length_nil]
                omega)
          _ = run code ((ces r).length + 1 + (1 + f))
                (⟨s, pre.length + (ces l).length, a1⟩ : VMSt) := step1
          _ = run code ((ces r).length + (1 + f) + 1)
                (⟨s, (pre ++ ces l).length, a1⟩ : VMSt) := by
              rw [run_fuel_congr code _ (by omega : (ces r).length + 1 + (1 + f)
                = (ces r).length + (1 + f) + 1)]
              exact run_pc_congr code _ s a1 (by
                simp only [List.length_append]
                try omega)
          _ = run code ((ces r).length + (1 + f))
                (⟨a1 :: s, (pre ++ ces l).length + 1, a1⟩ : VMSt) := step2
          _ = run code ((ces r).length + (1 + f))
                (⟨a1 :: s, (pre ++ ces l ++ [(⟨.push, none⟩ : VInstr)]).length, a1⟩ : VMSt) :=
              run_pc_congr code _ (a1 :: s) a1 (by
                simp only [List.length_append, List.length_cons, List.length_nil]
                try omega)
          _ = run code (1 + f)
                (⟨a1 :: s, (pre ++ ces l ++ [(⟨.push, none⟩ : VInstr)]).length
                  + (ces r).length, b1⟩ : VMSt) := step3
          _ = run code (f + 1)
                (⟨a1 :: s, (pre ++ ces l ++ ⟨.push, none⟩ :: ces r).length, b1⟩ : VMSt) := by
              rw [run_fuel_congr code _ (by omega : 1 + f = f + 1)]
              exact run_pc_congr code _ (a1 :: s) b1 (by
                simp only [List.length_append, List.length_cons, List.length_nil]
                try omega)
          _ = run code f (⟨s, (pre ++ ces l ++ ⟨.push, none⟩ :: ces r).length
                + 1, v⟩ : VMSt) := step4
          _ = run code f ⟨s, pre.length + (ces (Expr.binary op l r)).length, v⟩ :=
              run_pc_congr code f s v (by
                rw [hces]
                simp only [List.length_append, List.length_cons, List.length_nil]
                omega)
  | .str s0, h, v, hv, pre, post, code, s, a, f, hc => by simp [arithOnly] at h
  | .var x, h, v, hv, pre, post, code, s, a, f, hc => by simp [arithOnly] at h
  | .unary op e, h, v, hv, pre, post, code, s, a, f, hc => by simp [arithOnly] at h
  | .call c args, h, v, hv, pre, post, code, s, a, f, hc => by simp [arithOnly] at h
  | .cast t e, h, v, hv, pre, post, code, s, a, f, hc => by simp [arithOnly] at h
  | .sizeOf t, h, v, hv, pre, post, code, s, a, f, hc => by simp [arithOnly] at h
  | .conditional c t e, h, v, hv, pre, post, code, s, a, f, hc => by
      simp [arithOnly] at h
  | .index a0 b0, h, v, hv, pre, post, code, s, a, f, hc => by simp [arithOnly] at h

theorem cStmt_straight (s : Stmt) (hs : straightStmt s) (code : List VInstr) :
    cStmt s code = some (code ++ stmtCes s) := by
  rcases hs with (rfl | ⟨m, w, rfl, hm, hw⟩) | ⟨m, w, rfl, hm, hw⟩ | rfl
  · simp [cStmt, stmtCes]
  · simp only [cStmt, stmtCes]
    exact cExpr_arith m hm code
  · simp only [cStmt, stmtCes, bind, Option.bind, cExpr_arith m hm code]
    simp [List.append_assoc]
  · simp [cStmt, stmtCes]

theorem cStmtList_straight : ∀ (l : List Stmt), (∀ s ∈ l, straightStmt s) →
    ∀ code, cStmtList l code = some (code ++ straightFlat l) := by
  intro l
  induction l with
  | nil => intro _ code; simp [cStmtList, straightFlat]
  | cons s rest ih =>
    intro h code
    have hs := h s (List.Mem.head _)
    have hrest := fun s' hm => h s' (List.Mem.tail _ hm)
    simp only [cStmtList, bind, Option.bind, cStmt_straight s hs code,
      ih hrest]
    simp [straightFlat, List.append_assoc]

theorem mids_run : ∀ (mids : List Stmt), (∀ m ∈ mids, discardable m) →
    ∀ (pre post code : List VInstr) (s : List Int) (a : Int) (f : Nat),
      code = pre ++ straightFlat mids ++ post →
      ∃ a', run code ((straightFlat mids).length + f) ⟨s, pre.length, a⟩
        = run code f ⟨s, pre.length + (straightFlat mids).length, a'⟩ := by
  intro mids
  induction mids with
  | nil =>
    intro _ pre post code s a f _
    refine ⟨a, ?_⟩
    rw [run_fuel_congr code _ (by simp [straightFlat] : (straightFlat []).length + f = f)]
    exact run_pc_congr code f s a (by simp [straightFlat])
  | cons m rest ih =>
    intro h pre post code s a f hc
    have hm := h m (List.Mem.head _)
    have hrest := fun m' hmm => h m' (List.Mem.tail _ hmm)
    have hflat : straightFlat (m :: rest) = stmtCes m ++ straightFlat rest := by
      simp [straightFlat]
    rcases hm with rfl | ⟨e0, w, rfl, he0, hw0⟩
    · -- empty statement contributes no code
      have hflat0 : straightFlat (Stmt.empty :: rest) = straightFlat rest := by
        simp [straightFlat, stmtCes]
      rw [hflat0] at hc ⊢
      exact ih hrest pre post code s a f hc
    · -- expression statement
      have hflat1 : straightFlat (Stmt.exprS e0 :: rest)
          = ces e0 ++ straightFlat rest := by
        simp [straightFlat, stmtCes]
      rw [hflat1] at hc ⊢
      have hcode : code = pre ++ ces e0 ++ (straightFlat rest ++ post) := by
        rw [hc]; simp [List.append_assoc]
      have hA := ces_run e0 he0 w hw0 pre (straightFlat rest ++ post) code s a
        ((straightFlat rest).length + f) hcode
      obtain ⟨a', hB⟩ := ih hrest (pre ++ ces e0) post code s w f
        (by rw [hcode]; simp [List.append_assoc])
      refine ⟨a', ?_⟩
      calc run code ((ces e0 ++ straightFlat rest).length + f) ⟨s, pre.length, a⟩
          = run code ((ces e0).length + ((straightFlat rest).length + f))
              ⟨s, pre.length, a⟩ :=
            run_fuel_congr code _ (by simp [List.length_append]; try omega)
        _ = run code ((straightFlat rest).length + f)
              (⟨s, pre.length + (ces e0).length, w⟩ : VMSt) := hA
        _ = run code ((straightFlat rest).length + f)
              (⟨s, (pre ++ ces e0).length, w⟩ : VMSt) :=
            run_pc_congr code _ s w (by simp [List.length_append])
        _ = run code f
              (⟨s, (pre ++ ces e0).length + (straightFlat rest).length, a'⟩ : VMSt) := hB
        _ = run code f
              (⟨s, pre.length + (ces e0 ++ straightFlat rest).length, a'⟩ : VMSt) :=
            run_pc_congr code f s a' (by
              simp only [List.length_append]
              try omega)

/-- C1 (amended): for every source whose parse yields a single function
named main whose body is straight-line literal arithmetic (any defined
discardable expression statements, then return of a defined literal
arithmetic expression, then anything straight-line, as the parser's
extra trailing empty ensures), running the compiled bytecode returns
exactly the value of the returned expression evaluated left-to-right
with left OP right operand order. -/
theorem c1_roundtrip_literal_arith (fuel : Nat) (src : String) (p : Program) (fd : FuncDef)
    (mids rest : List Stmt) (e : Expr) (v : Int)
    (_hp : parseProgram fuel src = .ok p)
    (hitems : p.items = [Item.function fd])
    (hname : fd.name = "main")
    (hbody : fd.body.stmts = mids ++ Stmt.ret (some e) :: rest)
    (hmids : ∀ m ∈ mids, discardable m)
    (hrest : ∀ s ∈ rest, straightStmt s)
    (he : arithOnly e = true)
    (hv : evalA e = some v) :
    compileAndRun p = some v := by
  have hstraight : ∀ s ∈ fd.body.stmts, straightStmt s := by
    rw [hbody]
    intro s hs
    rcases List.mem_append.mp hs with hl | hr
    · exact Or.inl (hmids s hl)
    · rcases List.mem_cons.mp hr with rfl | hr'
      · exact Or.inr (Or.inl ⟨e, v, rfl, he, hv⟩)
      · exact hrest s hr'
  have hcomp : compile p = some (straightFlat fd.body.stmts ++ [(⟨.exit, none⟩ : VInstr)]) := by
    show compileItems p.items [] = _
    rw [hitems]
    simp only [compileItems, hname, if_true, bind, Option.bind,
      cStmtList_straight _ hstraight []]
    simp
  have hflat : straightFlat fd.body.stmts
      = straightFlat mids ++ (ces e ++ [(⟨.exit, none⟩ : VInstr)] ++ straightFlat rest) := by
    rw [hbody]
    simp [straightFlat, stmtCes, List.append_assoc]
  have hcode : straightFlat fd.body.stmts ++ [(⟨.exit, none⟩ : VInstr)]
      = [] ++ straightFlat mids ++
        (ces e ++ ((⟨.exit, none⟩ : VInstr) :: (straightFlat rest ++ [(⟨.exit, none⟩ : VInstr)]))) := by
    rw [hflat]; simp [List.append_assoc]
  show (match compile p with
        | none => none
        | some c => run c (c.length + 1) vmNew) = some v
  rw [hcomp]
  show run (straightFlat fd.body.stmts ++ [(⟨.exit, none⟩ : VInstr)])
      ((straightFlat fd.body.stmts ++ [(⟨.exit, none⟩ : VInstr)]).length + 1) vmNew = some v
  obtain ⟨a', hA⟩ := mids_run mids hmids []
    (ces e ++ ((⟨.exit, none⟩ : VInstr) :: (straightFlat rest ++ [(⟨.exit, none⟩ : VInstr)])))
    (straightFlat fd.body.stmts ++ [(⟨.exit, none⟩ : VInstr)]) [] 0
    ((ces e).length + ((straightFlat rest).length + 3)) hcode
  have hB := ces_run e he v hv (straightFlat mids)
    ((⟨.exit, none⟩ : VInstr) :: (straightFlat rest ++ [(⟨.exit, none⟩ : VInstr)]))
    (straightFlat fd.body.stmts ++ [(⟨.exit, none⟩ : VInstr)]) [] a'
    ((straightFlat rest).length + 3)
    (by rw [hcode]; simp [List.append_assoc])
  have hexit : run (straightFlat fd.body.stmts ++ [(⟨.exit, none⟩ : VInstr)])
      (((straightFlat rest).length + 2) + 1)
      ⟨[], (straightFlat mids ++ ces e).length, v⟩ = some v := by
    rw [run_succ]
    have hg : (straightFlat fd.body.stmts ++ [(⟨.exit, none⟩ : VInstr)]).get?
        (straightFlat mids ++ ces e).length = some ⟨.exit, none⟩ := by
      have hsplit : straightFlat fd.body.stmts ++ [(⟨.exit, none⟩ : VInstr)]
          = (straightFlat mids ++ ces e) ++ (⟨.exit, none⟩ : VInstr) ::
            (straightFlat rest ++ [(⟨.exit, none⟩ : VInstr)]) := by
        rw [hflat]; simp [List.append_assoc]
      rw [hsplit]
      exact get?_append_cons _ _ _
    rw [hg]
    try rfl
  calc run (straightFlat fd.body.stmts ++ [(⟨.exit, none⟩ : VInstr)])
        ((straightFlat fd.body.stmts ++ [(⟨.exit, none⟩ : VInstr)]).length + 1) vmNew
      = run (straightFlat fd.body.stmts ++ [(⟨.exit, none⟩ : VInstr)])
          ((straightFlat mids).length +
            ((ces e).length + ((straightFlat rest).length + 3)))
          (⟨[], List.length ([] : List VInstr), 0⟩ : VMSt) :=
        run_fuel_congr _ _ (by
          rw [hflat]
          simp only [List.length_append, List.length_cons, List.length_nil]
          omega)
    _ = run (straightFlat fd.body.stmts ++ [(⟨.exit, none⟩ : VInstr)])
          ((ces e).length + ((straightFlat rest).length + 3))
          (⟨[], List.length ([] : List VInstr) + (straightFlat mids).length, a'⟩ : VMSt) := hA
    _ = run (straightFlat fd.body.stmts ++ [(⟨.exit, none⟩ : VInstr)])
          ((ces e).length + ((straightFlat rest).length + 3))
          (⟨[], (straightFlat mids).length, a'⟩ : VMSt) :=
        run_pc_congr _ _ [] a' (by simp)
    _ = run (straightFlat fd.body.stmts ++ [(⟨.exit, none⟩ : VInstr)])
          ((straightFlat rest).length + 3)
          (⟨[], (straightFlat mids).length + (ces e).length, v⟩ : VMSt) := hB
    _ = run (straightFlat fd.body.stmts ++ [(⟨.exit, none⟩ : VInstr)])
          (((straightFlat rest).length + 2) + 1)
          (⟨[], (straightFlat mids ++ ces e).length, v⟩ : VMSt) := by
        rw [run_fuel_congr _ _ (by omega : (straightFlat rest).length + 3
          = ((straightFlat rest).length + 2) + 1)]
        exact run_pc_congr _ _ [] v (by simp [List.length_append])
    _ = some v := hexit

/-- C1 counterexample: the claim's example source main(){ return 40 + 2; }
does not even parse: the parser requires a type keyword before the
function name, so run(compile(parse(src))) cannot yield 42 for it. -/
theorem c1_counterexample : parseProgram 100 ("main()\x7b return 40 + 2; \x7d")
    = .error (.expectedType (.ident "main")) := rfl

/-- C1 witness at the (type-annotated) example programs; note the spec
example (5+3)*2 evaluates to 16, not the 40 the spec claims. -/
theorem c1_roundtrip_literal_arith_witness :
    compileAndRun ⟨[Item.function ⟨Ty.int, "main", [], [],
        ⟨[Stmt.ret (some (Expr.binary .add (.num 40) (.num 2))), Stmt.empty]⟩⟩]⟩
      = some 42 ∧
    compileAndRun ⟨[Item.function ⟨Ty.int, "main", [], [],
        ⟨[Stmt.ret (some (Expr.binary .mul
            (Expr.binary .add (.num 5) (.num 3)) (.num 2))), Stmt.empty]⟩⟩]⟩
      = some 16 ∧
    compileAndRun ⟨[Item.function ⟨Ty.int, "main", [], [],
        ⟨[Stmt.ret (some (Expr.binary .sub (.num 10) (.num 3))), Stmt.empty]⟩⟩]⟩
      = some 7 := by
  refine ⟨?_, ?_, ?_⟩
  · exact c1_roundtrip_literal_arith 100 ("int main()\x7b return 40 + 2; \x7d") _ _ [] [Stmt.empty]
      _ 42 rfl rfl rfl rfl (by simp)
      (fun s hs => by rcases List.mem_singleton.mp hs with rfl
                      exact Or.inl (Or.inl rfl)) (by decide) (by decide)
  · exact c1_roundtrip_literal_arith 100 ("int main()\x7b return (5+3)*2; \x7d") _ _ [] [Stmt.empty]
      _ 16 rfl rfl rfl rfl (by simp)
      (fun s hs => by rcases List.mem_singleton.mp hs with rfl
                      exact Or.inl (Or.inl rfl)) (by decide) (by decide)
  · exact c1_roundtrip_literal_arith 100 ("int main()\x7b return 10 - 3; \x7d") _ _ [] [Stmt.empty]
      _ 7 rfl rfl rfl rfl (by simp)
      (fun s hs => by rcases List.mem_singleton.mp hs with rfl
                      exact Or.inl (Or.inl rfl)) (by decide) (by decide)

end C4
